import Mathlib

/-!
Verification of the CLIEngine core (lib/cli-engine.js): file discovery,
ignore-file resolution, per-file processing and result aggregation.

The JavaScript source is shallowly embedded:
* External capabilities (node `fs`, `path.resolve`, the `Config` helper, the
  `eslint` verifier, the `fstream-ignore` walker and the `FileFinder`
  ancestor scan) are fields of an `Env` record; the code under verification
  only sequences calls to them.
* The callback-driven control flow is linearised into a trace of `Event`s:
  each run returns the trace of capability calls it performed, in the order
  node's single-threaded event loop performs them, together with its
  outcome.  The `fstream-ignore` stream is taken at its documented contract:
  it emits its (already ignore-filtered) `child` entries and then exactly one
  terminal signal, either `end` or `error`.
* The module-level mutable `ignoreFileFinder` variable is threaded explicitly
  as a `ModuleState` value.
* A dispatch's result callback `cb` may be invoked more than once: when
  `findIgnoreFiles` throws, `cb(err)` fires but the walker -- constructed
  before the call and never paused on that path -- keeps running and its
  terminal signal invokes `cb` a second time.  A dispatch therefore yields a
  `CbCalls` value: the `cb(err)` invocations that precede the terminal one,
  plus the terminal invocation itself.  At the engine level the user's
  `callback` can consequently fire several times; a run records the ordered
  list of `callback(err)` invocations and whether the final
  `callback(null, results)` was reached.
-/

/-- A runtime error value (a node `Error` object), identified by message. -/
structure Err where
  message : String
deriving DecidableEq, Repr

/-- A linting warning or error (`LintMessage` typedef in the source). -/
structure LintMessage where
  fatal : Bool
  message : String
deriving DecidableEq, Repr

/-- A linting result (`LintResult` typedef in the source). -/
structure LintResult where
  filePath : String
  messages : List LintMessage
deriving DecidableEq, Repr

/-- Result of `fs.stat`: the only field the source consults. -/
structure Stats where
  isDirectory : Bool
deriving DecidableEq, Repr

/-- The options a CLIEngine stores (`CLIEngineOptions` typedef): every field
of `defaultOptions`, with rule severities abstracted to `Nat`. -/
structure CLIEngineOptions where
  configFile : Option String
  reset : Bool
  rulePaths : List String
  useEslintrc : Bool
  envs : List String
  globals : List String
  rules : List (String × Nat)
  ignore : Bool
  ignorePath : Option String
deriving DecidableEq, Repr

/-- Source constant `var defaultOptions = {...}`. -/
def defaultOptions : CLIEngineOptions :=
  { configFile := none
    reset := false
    rulePaths := []
    useEslintrc := true
    envs := []
    globals := []
    rules := []
    ignore := true
    ignorePath := none }

/-- A caller-supplied options object: any subset of the fields may be
present (`none` models an absent property). -/
structure PartialOptions where
  configFile : Option (Option String) := none
  reset : Option Bool := none
  rulePaths : Option (List String) := none
  useEslintrc : Option Bool := none
  envs : Option (List String) := none
  globals : Option (List String) := none
  rules : Option (List (String × Nat)) := none
  ignore : Option Bool := none
  ignorePath : Option (Option String) := none
deriving DecidableEq, Repr

/-- Source constant `var ESLINT_IGNORE_FILENAME = ".eslintignore";`. -/
def ESLINT_IGNORE_FILENAME : String := ".eslintignore"

/-- One observable step of a run: a call into an external capability or a
result being recorded.  Trace order is the order node's event loop performs
the calls. -/
inductive Event where
  /-- Call `fs.stat(file, ...)` issued by `executeOnFileOrDirectory`. -/
  | statCall (path : String)
  /-- the `FileFinder` actually scanning the filesystem for ancestor
  ignore files (a cache miss in `findAll`). -/
  | scanAncestorsEv (dir : String)
  /-- Call `ignore.pause()` on the directory walker. -/
  | pauseWalk
  /-- completion of `ignore.addIgnoreFile(file, ...)` for one ancestor
  ignore file. -/
  | loadIgnoreFile (path : String)
  /-- Call `ignore.resume()` on the directory walker. -/
  | resumeWalk
  /-- Call `eslint.reset()`. -/
  | resetEv
  /-- Call `configHelper.getConfig(filePath)`. -/
  | getConfigEv (path : String)
  /-- Call `fs.readFileSync(path, "utf8")`. -/
  | readFileEv (path : String)
  /-- Call `eslint.verify(text, config, filename)`. -/
  | verifyEv (text config filename : String)
  /-- a `results.push(...)` of one per-file result during a walk. -/
  | pushResult (r : LintResult)
deriving DecidableEq, Repr

/-- What the `fstream-ignore` walker produces for one directory: the
non-ignored entries it emits as `child` events, in discovery order, and
then exactly one terminal signal -- `error e` when `terminalError = some e`,
otherwise `end`. -/
structure WalkSpec where
  children : List String
  terminalError : Option Err
deriving DecidableEq, Repr

/-- The external world as the source consumes it. -/
structure Env where
  /-- Capability `fs.stat` (asynchronous in the source; the callback receives
  either an error or a `Stats`). -/
  stat : String → Except Err Stats
  /-- Capability `fs.existsSync`. -/
  existsSync : String → Bool
  /-- Call `fs.readFileSync(path, "utf8")`. -/
  readFileSync : String → String
  /-- Capability `path.resolve(p)`. -/
  resolve : String → String
  /-- Capability `path.resolve(dir, "..")`. -/
  parentDir : String → String
  /-- Capability `configHelper.getConfig(filePath)`, for a helper built as
  `new Config(options)`; the effective configuration is abstract. -/
  getConfig : CLIEngineOptions → String → String
  /-- Call `eslint.verify(text, config, filename)`. -/
  verify : String → String → String → List LintMessage
  /-- the filesystem scan `FileFinder.findAll` performs on a cache miss:
  every ancestor directory's `.eslintignore`, or a filesystem error. -/
  scanAncestors : String → Except Err (List String)
  /-- the `fstream-ignore` traversal of one directory. -/
  walk : String → WalkSpec

/-- Model of `path.basename`, on character lists: the part of the path after the
last `/`. -/
def basenameChars (l : List Char) : List Char :=
  (l.reverse.takeWhile (fun c => c != '/')).reverse

/-- Model of `path.extname(p)`: from the last `.` of the basename to the end, empty
when the basename has no `.` or starts with its only `.`. -/
def extname (p : String) : String :=
  let b := basenameChars p.data
  let after := (b.reverse.takeWhile (fun c => c != '.')).reverse
  if after.length + 1 < b.length then String.mk ('.' :: after) else ""

/-- Source function `processFile(filename, configHelper)`: reset the verifier, then either
verify the file's text or produce the single fatal could-not-find message.
Returns the trace of capability calls and the `LintResult`. -/
def processFile (env : Env) (configHelper : CLIEngineOptions) (filename : String) :
    List Event × LintResult :=
  let filePath := env.resolve filename
  if env.existsSync filePath then
    let config := env.getConfig configHelper filePath
    let text := env.readFileSync (env.resolve filename)
    let messages := env.verify text config filename
    ([Event.resetEv, Event.getConfigEv filePath, Event.readFileEv (env.resolve filename),
      Event.verifyEv text config filename],
     { filePath := filename, messages := messages })
  else
    ([Event.resetEv],
     { filePath := filename,
       messages := [{ fatal := true,
                      message := "Could not find file at '" ++ filePath ++ "'." }] })

/-- The state of one `FileFinder` instance: the filename it looks for and
its per-directory memo of results. -/
structure FileFinder where
  fileName : String
  cache : List (String × List String)
deriving DecidableEq, Repr

/-- Modelled from the spec: `lib/file-finder.js` is required by the source
but is not under src/.  Per spec §4.1, `findAll(directory)` walks every
ancestor directory collecting files with the instance's reserved name,
memoizing per-directory results on the instance so a repeated query does not
re-scan the filesystem, and failing with a filesystem error when an ancestor
cannot be read.  The underlying scan is the `scanAncestors` capability; a
cache hit performs no scan. -/
def FileFinder.findAll (env : Env) (f : FileFinder) (dir : String) :
    List Event × Except Err (List String) × FileFinder :=
  match f.cache.lookup dir with
  | some r => ([], Except.ok r, f)
  | none =>
    match env.scanAncestors dir with
    | Except.error e => ([Event.scanAncestorsEv dir], Except.error e, f)
    | Except.ok r =>
      ([Event.scanAncestorsEv dir], Except.ok r,
       { f with cache := (dir, r) :: f.cache })

/-- The module-level mutable state of lib/cli-engine.js:
`var ignoreFileFinder;` -/
structure ModuleState where
  ignoreFileFinder : Option FileFinder
deriving DecidableEq, Repr

/-- The state of the module when it is first loaded: no finder yet. -/
def ModuleState.init : ModuleState := { ignoreFileFinder := none }

/-- Source function `findIgnoreFiles(dir)`: lazily create the module-level `FileFinder` on
first use, then delegate to its `findAll`. -/
def findIgnoreFiles (env : Env) (st : ModuleState) (dir : String) :
    List Event × Except Err (List String) × ModuleState :=
  let finder :=
    match st.ignoreFileFinder with
    | some f => f
    | none => { fileName := ESLINT_IGNORE_FILENAME, cache := [] }
  let r := FileFinder.findAll env finder dir
  (r.1, r.2.1, { ignoreFileFinder := some r.2.2 })

/-- The `"child"` handler applied to the walker's emitted entries in
discovery order: entries whose `path.extname` is `".js"` are processed with
`processFile` and pushed onto `results`.  Returns the trace of the handler
invocations and the accumulated results. -/
def walkChildren (env : Env) (configHelper : CLIEngineOptions) :
    List String → List Event × List LintResult
  | [] => ([], [])
  | c :: cs =>
    let rest := walkChildren env configHelper cs
    if extname c == ".js" then
      let pr := processFile env configHelper c
      (pr.1 ++ Event.pushResult pr.2 :: rest.1, pr.2 :: rest.2)
    else rest

/-- The `forEach` over the ancestor ignore files: each `addIgnoreFile`
completion bumps `counter`, and `ignore.resume()` fires inside the callback
that makes `++counter === ignoreFilesInParentDirs.length` true. -/
def loadAncestorIgnoreFiles : List String → Nat → Nat → List Event
  | [], _, _ => []
  | f :: rest, counter, total =>
    Event.loadIgnoreFile f ::
      ((if counter + 1 = total then [Event.resumeWalk] else []) ++
        loadAncestorIgnoreFiles rest (counter + 1) total)

/-- The ordered sequence of invocations one dispatch makes on its result
callback `cb`.  Each entry of `preErrors` is a `cb(err)` fired before the
walker's terminal signal (this happens exactly when `findIgnoreFiles`
throws: the catch calls `cb(err)` while the never-paused walker keeps
running).  `terminal` is the walker's single terminal signal --
`cb(null, results)` on `end`, `cb(err)` on `error` -- or the sole
invocation of a single-callback dispatch (stat failure, plain file). -/
structure CbCalls where
  preErrors : List Err
  terminal : Except Err (List LintResult)
deriving Repr

/-- Source function `executeOnDirectory(dir, configHelper, cb)`.  The walker
is constructed first (it starts immediately); the synchronous phase then
runs `findIgnoreFiles(path.resolve(dir, ".."))`.  On success, when ancestor
ignore files exist, `pause()`, the `addIgnoreFile` loads and the final
`resume()` precede every `child` event, and the stream's terminal signal is
the only `cb` invocation (`end` → `cb(null, results)`, `error` → `cb(err)`
with every pushed result discarded).  When `findIgnoreFiles` throws, the
catch calls `cb(err)` at once -- but nothing stops the already-running,
never-paused walker: its `child` events still fire (ancestor patterns were
never registered) and its terminal signal invokes `cb` a second time. -/
def executeOnDirectory (env : Env) (st : ModuleState) (dir : String)
    (configHelper : CLIEngineOptions) :
    List Event × CbCalls × ModuleState :=
  let fi := findIgnoreFiles env st (env.parentDir dir)
  let w := env.walk dir
  let walked := walkChildren env configHelper w.children
  let terminal : Except Err (List LintResult) :=
    match w.terminalError with
    | some e => Except.error e
    | none => Except.ok walked.2
  match fi.2.1 with
  | Except.error e =>
    (fi.1 ++ walked.1, { preErrors := [e], terminal := terminal }, fi.2.2)
  | Except.ok ancestors =>
    let barrier :=
      if ancestors.length ≠ 0 then
        Event.pauseWalk :: loadAncestorIgnoreFiles ancestors 0 ancestors.length
      else []
    (fi.1 ++ barrier ++ walked.1,
     { preErrors := [], terminal := terminal },
     fi.2.2)

/-- Source function `executeOnFileOrDirectory(file, configHelper, cb)`: `fs.stat` the
target; a stat error goes straight to `cb` (one invocation); a
non-directory is processed as one file (one invocation); a directory is
delegated to `executeOnDirectory`. -/
def executeOnFileOrDirectory (env : Env) (st : ModuleState) (file : String)
    (configHelper : CLIEngineOptions) :
    List Event × CbCalls × ModuleState :=
  match env.stat file with
  | Except.error e =>
    ([Event.statCall file], { preErrors := [], terminal := Except.error e }, st)
  | Except.ok stats =>
    if !stats.isDirectory then
      let pr := processFile env configHelper file
      (Event.statCall file :: pr.1,
       { preErrors := [], terminal := Except.ok [pr.2] }, st)
    else
      let d := executeOnDirectory env st file configHelper
      (Event.statCall file :: d.1, d.2.1, d.2.2)

/-- The observable run of one `executeOnFiles` call: the trace of capability
calls, the ordered `callback(err)` invocations the user received (each
dispatch callback invocation carrying an error is propagated immediately),
whether the final `callback(null, results)` was reached -- and with which
result list -- the module state, and the contents of the caller's `files`
array after the run (`files.shift()` removes each target as it is
dispatched).  A double-callback dispatch makes `errors` nonempty while the
run still completes, so the user can receive both. -/
structure RunOutcome where
  trace : List Event
  errors : List Err
  completed : Option (List LintResult)
  moduleState : ModuleState
  filesAfter : List String
deriving Repr

/-- The `next()` loop of `executeOnFiles`: shift the next target, dispatch
it; every `cb(err)` invocation runs `callback(err)` and returns, while a
`cb(null, res)` invocation concatenates `res` onto the accumulator and
calls `next()`; `callback(null, results)` fires when the array is
exhausted.  A dispatch whose pre-terminal `cb(err)` is followed by a
terminal `cb(null, res)` therefore surfaces the error and then resumes the
loop. -/
def executeOnFilesLoop (env : Env) (configHelper : CLIEngineOptions) :
    List String → List LintResult → ModuleState → RunOutcome
  | [], results, st =>
    { trace := [], errors := [], completed := some results, moduleState := st,
      filesAfter := [] }
  | f :: rest, results, st =>
    let d := executeOnFileOrDirectory env st f configHelper
    match d.2.1.terminal with
    | Except.error e =>
      { trace := d.1, errors := d.2.1.preErrors ++ [e], completed := none,
        moduleState := d.2.2, filesAfter := rest }
    | Except.ok rs =>
      let o := executeOnFilesLoop env configHelper rest (results ++ rs) d.2.2
      { o with trace := d.1 ++ o.trace, errors := d.2.1.preErrors ++ o.errors }

/-- A CLIEngine instance: its stored options.  (The constructor also calls
`rules.load` for each entry of `rulePaths`; rule registration is external
and outside every claim, so it is not traced.) -/
structure CLIEngine where
  options : CLIEngineOptions
deriving DecidableEq, Repr

/-- The `CLIEngine(options)` constructor's option layering:
`assign(Object.create(defaultOptions), options || {})`.  Reading a field of
the stored object yields the caller's own property when one was copied by
`assign`, and falls through to the `defaultOptions` prototype otherwise;
`options || {}` makes a missing argument behave as the empty object. -/
def CLIEngine.create (options : Option PartialOptions) : CLIEngine :=
  let o := options.getD {}
  { options :=
    { configFile := o.configFile.getD defaultOptions.configFile
      reset := o.reset.getD defaultOptions.reset
      rulePaths := o.rulePaths.getD defaultOptions.rulePaths
      useEslintrc := o.useEslintrc.getD defaultOptions.useEslintrc
      envs := o.envs.getD defaultOptions.envs
      globals := o.globals.getD defaultOptions.globals
      rules := o.rules.getD defaultOptions.rules
      ignore := o.ignore.getD defaultOptions.ignore
      ignorePath := o.ignorePath.getD defaultOptions.ignorePath } }

/-- Source method `engine.executeOnFiles(files, callback)`: build one `Config` helper from
the stored options (the helper is the options value itself; resolution is
the external `getConfig` capability) and run the `next()` loop with an empty
accumulator.  The engine object is returned unchanged: the method never
writes to `this`. -/
def CLIEngine.executeOnFiles (env : Env) (engine : CLIEngine) (st : ModuleState)
    (files : List String) : RunOutcome × CLIEngine :=
  (executeOnFilesLoop env engine.options files [] st, engine)

/-! ### Helper lemmas -/

/-- The first element surviving `dropWhile` falsifies the predicate. -/
theorem dropWhile_head_false {α : Type} (p : α → Bool) :
    ∀ (l : List α) (x : α) (xs : List α), l.dropWhile p = x :: xs → p x = false := by
  intro l
  induction l with
  | nil => intro x xs h; simp [List.dropWhile] at h
  | cons a t ih =>
    intro x xs h
    by_cases ha : p a
    · rw [List.dropWhile_cons, if_pos ha] at h
      exact ih x xs h
    · rw [List.dropWhile_cons, if_neg ha] at h
      rw [← (List.cons.injEq ..).mp h |>.1]
      simpa using ha

/-- The basename is a suffix of the path. -/
theorem basenameChars_suffix (l : List Char) : basenameChars l <:+ l := by
  refine ⟨(l.reverse.dropWhile (fun c => c != '/')).reverse, ?_⟩
  show _ ++ basenameChars l = l
  unfold basenameChars
  rw [← List.reverse_append, List.takeWhile_append_dropWhile, List.reverse_reverse]

/-- A path whose `extname` is `".js"` ends in the characters `.js`. -/
theorem extname_js_suffix (p : String) (h : extname p = ".js") :
    ['.', 'j', 's'] <:+ p.data := by
  simp only [extname] at h
  set b := basenameChars p.data with hb
  set after := (b.reverse.takeWhile (fun c => c != '.')).reverse with hafter
  split at h
  · have hdata : '.' :: after = ['.', 'j', 's'] := congrArg String.data h
    have hsplit := List.takeWhile_append_dropWhile (fun c : Char => c != '.') b.reverse
    have hlen0 : (b.reverse.takeWhile (fun c => c != '.')).length +
        (b.reverse.dropWhile (fun c => c != '.')).length = b.length := by
      have h1 := congrArg List.length hsplit
      rwa [List.length_append, List.length_reverse] at h1
    have hlenafter : after.length = (b.reverse.takeWhile (fun c => c != '.')).length := by
      rw [hafter, List.length_reverse]
    have hlenc : after.length + 1 < b.length := by assumption
    obtain ⟨x, xs, hx⟩ : ∃ x xs, b.reverse.dropWhile (fun c => c != '.') = x :: xs := by
      cases hxx : b.reverse.dropWhile (fun c => c != '.') with
      | nil => rw [hxx] at hlen0; simp at hlen0; omega
      | cons x xs => exact ⟨x, xs, rfl⟩
    have hxdot : x = '.' := by
      have h2 := dropWhile_head_false (fun c => c != '.') b.reverse x xs hx
      simpa using h2
    have hbrev : b.reverse = after.reverse ++ x :: xs := by
      rw [hafter, List.reverse_reverse, ← hx, hsplit]
    have hbeq : b = xs.reverse ++ '.' :: after := by
      have h3 := congrArg List.reverse hbrev
      rw [List.reverse_reverse, List.reverse_append, List.reverse_cons,
        List.reverse_reverse, hxdot, List.append_assoc, List.singleton_append] at h3
      exact h3
    have h1 : '.' :: after <:+ b := ⟨xs.reverse, hbeq.symm⟩
    have h2 : b <:+ p.data := basenameChars_suffix p.data
    have h4 := List.IsSuffix.trans h1 h2
    rwa [hdata] at h4
  · exact absurd (congrArg String.data h) (by simp)

/-- The result `processFile` returns carries the filename as given. -/
theorem processFile_filePath (env : Env) (c : CLIEngineOptions) (f : String) :
    (processFile env c f).2.filePath = f := by
  by_cases h : env.existsSync (env.resolve f) <;> simp [processFile, h]

/-- The trace of `processFile` contains no ignore-file load event. -/
theorem processFile_no_load (env : Env) (c : CLIEngineOptions) (f g : String) :
    Event.loadIgnoreFile g ∉ (processFile env c f).1 := by
  by_cases h : env.existsSync (env.resolve f) <;> simp [processFile, h]

/-- The trace of `processFile` contains no pause event. -/
theorem processFile_no_pause (env : Env) (c : CLIEngineOptions) (f : String) :
    Event.pauseWalk ∉ (processFile env c f).1 := by
  by_cases h : env.existsSync (env.resolve f) <;> simp [processFile, h]

/-- The results a walk accumulates are exactly the `.js`-extension children,
in discovery order, each processed by `processFile`. -/
theorem walkChildren_results (env : Env) (c : CLIEngineOptions) (cs : List String) :
    (walkChildren env c cs).2 =
      (cs.filter (fun p => extname p == ".js")).map (fun p => (processFile env c p).2) := by
  induction cs with
  | nil => rfl
  | cons x xs ih =>
    rw [walkChildren, List.filter_cons]
    cases hx : extname x == ".js" with
    | false => simpa [hx] using ih
    | true => simp [hx, ih]

/-- A walk's trace never contains an ignore-file load. -/
theorem walkChildren_no_load (env : Env) (c : CLIEngineOptions) (cs : List String)
    (g : String) : Event.loadIgnoreFile g ∉ (walkChildren env c cs).1 := by
  induction cs with
  | nil => simp [walkChildren]
  | cons x xs ih =>
    rw [walkChildren]
    cases hx : extname x == ".js" with
    | false => simpa [hx] using ih
    | true =>
      simp only [hx, if_true, List.mem_append, List.mem_cons]
      intro h
      rcases h with h | h | h
      · exact processFile_no_load env c x g h
      · exact Event.noConfusion h
      · exact ih h

/-- A walk's trace never contains a pause. -/
theorem walkChildren_no_pause (env : Env) (c : CLIEngineOptions) (cs : List String) :
    Event.pauseWalk ∉ (walkChildren env c cs).1 := by
  induction cs with
  | nil => simp [walkChildren]
  | cons x xs ih =>
    rw [walkChildren]
    cases hx : extname x == ".js" with
    | false => simpa [hx] using ih
    | true =>
      simp only [hx, if_true, List.mem_append, List.mem_cons]
      intro h
      rcases h with h | h | h
      · exact processFile_no_pause env c x h
      · exact Event.noConfusion h
      · exact ih h

/-- Everything `findAll` traces is an ancestor scan for the queried
directory. -/
theorem findAll_trace (env : Env) (f : FileFinder) (d : String) :
    ∀ e ∈ (FileFinder.findAll env f d).1, e = Event.scanAncestorsEv d := by
  intro e he
  unfold FileFinder.findAll at he
  rcases h1 : List.lookup d f.cache with _ | r
  · rw [h1] at he
    rcases h2 : env.scanAncestors d with e2 | r2 <;> rw [h2] at he <;> simpa using he
  · rw [h1] at he
    simp at he

/-- Everything `findIgnoreFiles` traces is an ancestor scan for the queried
directory. -/
theorem findIgnoreFiles_trace (env : Env) (st : ModuleState) (d : String) :
    ∀ e ∈ (findIgnoreFiles env st d).1, e = Event.scanAncestorsEv d := by
  intro e he
  unfold findIgnoreFiles at he
  exact findAll_trace env _ d e he

/-- The ancestor-load phase consists only of load and resume events. -/
theorem loadAncestorIgnoreFiles_events (l : List String) :
    ∀ counter total, ∀ e ∈ loadAncestorIgnoreFiles l counter total,
      (∃ g, e = Event.loadIgnoreFile g) ∨ e = Event.resumeWalk := by
  induction l with
  | nil => intro counter total e he; simp [loadAncestorIgnoreFiles] at he
  | cons f rest ih =>
    intro counter total e he
    rw [loadAncestorIgnoreFiles] at he
    rcases List.mem_cons.mp he with h | h
    · exact Or.inl ⟨f, h⟩
    · rcases List.mem_append.mp h with h | h
      · by_cases hc : counter + 1 = total
        · rw [if_pos hc] at h
          simp at h
          exact Or.inr h
        · rw [if_neg hc] at h
          simp at h
      · exact ih (counter + 1) total e h

/-- Sequential decomposition of the `next()` loop: running the targets
`xs ++ ys` equals running `xs` first and, only if every target of `xs`
reached a terminal `cb(null, res)`, continuing with `ys` from the
accumulated results and module state; traces and user-error callbacks
concatenate in order, and after a terminal failure inside `xs` the targets
of `ys` are never dispatched. -/
theorem executeOnFilesLoop_append (env : Env) (c : CLIEngineOptions)
    (xs ys : List String) (acc : List LintResult) (st : ModuleState) :
    executeOnFilesLoop env c (xs ++ ys) acc st =
      (let o₁ := executeOnFilesLoop env c xs acc st
       match o₁.completed with
       | none => { o₁ with filesAfter := o₁.filesAfter ++ ys }
       | some acc₁ =>
         let o₂ := executeOnFilesLoop env c ys acc₁ o₁.moduleState
         { o₂ with trace := o₁.trace ++ o₂.trace,
                   errors := o₁.errors ++ o₂.errors }) := by
  induction xs generalizing acc st with
  | nil =>
    simp [executeOnFilesLoop]
  | cons f xs ih =>
    simp only [List.cons_append, executeOnFilesLoop]
    rcases hd : (executeOnFileOrDirectory env st f c).2.1.terminal with e | rs
    · simp [hd]
    · simp only [hd, List.append_eq]
      rw [ih]
      rcases ho : (executeOnFilesLoop env c xs (acc ++ rs)
          (executeOnFileOrDirectory env st f c).2.2).completed with _ | acc₁
      · simp [ho]
      · simp [ho, List.append_assoc]

/-- A loop run that reached the final `callback(null, results)` consumed
the whole `files` array. -/
theorem executeOnFilesLoop_ok_filesAfter (env : Env) (c : CLIEngineOptions) :
    ∀ (files : List String) (acc : List LintResult) (st : ModuleState)
      (rs : List LintResult),
      (executeOnFilesLoop env c files acc st).completed = some rs →
      (executeOnFilesLoop env c files acc st).filesAfter = [] := by
  intro files
  induction files with
  | nil => intro acc st rs h; rfl
  | cons f fs ih =>
    intro acc st rs h
    simp only [executeOnFilesLoop] at h ⊢
    rcases hd : (executeOnFileOrDirectory env st f c).2.1.terminal with e | out
    · simp [hd] at h
    · simp only [hd] at h ⊢
      exact ih _ _ rs h

/-- The shape of a directory dispatch's trace: either the ignore-file
lookup failed -- the never-paused walker still runs, so the lookup is
followed directly by the walk with no pause, load or resume -- or the
lookup succeeded and the trace is lookup, then the pause/load/resume
barrier (empty when no ancestor ignore file exists), then the walk. -/
theorem executeOnDirectory_trace (env : Env) (st : ModuleState) (dir : String)
    (c : CLIEngineOptions) :
    (∃ e, (findIgnoreFiles env st (env.parentDir dir)).2.1 = Except.error e ∧
       (executeOnDirectory env st dir c).1 =
         (findIgnoreFiles env st (env.parentDir dir)).1 ++
           (walkChildren env c (env.walk dir).children).1) ∨
    (∃ ancestors,
       (findIgnoreFiles env st (env.parentDir dir)).2.1 = Except.ok ancestors ∧
       (executeOnDirectory env st dir c).1 =
         (findIgnoreFiles env st (env.parentDir dir)).1 ++
           (if ancestors.length ≠ 0 then
             Event.pauseWalk ::
               loadAncestorIgnoreFiles ancestors 0 ancestors.length
            else []) ++
           (walkChildren env c (env.walk dir).children).1) := by
  rcases hf : (findIgnoreFiles env st (env.parentDir dir)).2.1 with e | ancestors
  · left
    refine ⟨e, rfl, ?_⟩
    simp only [executeOnDirectory]
    rw [hf]
  · right
    refine ⟨ancestors, rfl, ?_⟩
    simp only [executeOnDirectory]
    rw [hf]

/-- The terminal callback invocation of a directory dispatch is determined
by the walker's terminal signal alone -- also on the failed-lookup path,
where the walker still runs to its terminal signal. -/
theorem executeOnDirectory_terminal (env : Env) (st : ModuleState) (dir : String)
    (c : CLIEngineOptions) :
    ((executeOnDirectory env st dir c).2.1).terminal =
      (match (env.walk dir).terminalError with
       | some e => Except.error e
       | none => Except.ok (walkChildren env c (env.walk dir).children).2) := by
  rcases hf : (findIgnoreFiles env st (env.parentDir dir)).2.1 with e | ancestors <;>
    simp only [executeOnDirectory] <;> rw [hf]

/-! ### Concrete environments for witnesses and counterexamples -/

/-- A world with a plain file `ok.js` and nothing else: any other path
fails to stat. -/
def envB : Env :=
  { stat := fun p =>
      if p == "ok.js" then Except.ok { isDirectory := false }
      else Except.error { message := "ENOENT: " ++ p }
    existsSync := fun p => p == "/r/ok.js"
    readFileSync := fun _ => "var x;"
    resolve := fun p => "/r/" ++ p
    parentDir := fun _ => "/r"
    getConfig := fun _ _ => "cfg"
    verify := fun _ _ _ => []
    scanAncestors := fun _ => Except.ok []
    walk := fun _ => { children := [], terminalError := none } }

/-- A world with a directory `d` containing `d/a.js` and `d/b.txt`, a plain
file `a.js`, and no ancestor ignore files. -/
def envA : Env :=
  { stat := fun p =>
      if p == "d" then Except.ok { isDirectory := true }
      else if p == "a.js" then Except.ok { isDirectory := false }
      else Except.error { message := "ENOENT: " ++ p }
    existsSync := fun p => p == "/r/a.js" || p == "/r/d/a.js"
    readFileSync := fun _ => "var x;"
    resolve := fun p => "/r/" ++ p
    parentDir := fun _ => "/r"
    getConfig := fun _ _ => "cfg"
    verify := fun _ _ _ => []
    scanAncestors := fun _ => Except.ok []
    walk := fun p =>
      if p == "d" then { children := ["d/a.js", "d/b.txt"], terminalError := none }
      else { children := [], terminalError := none } }

/-- A world with a directory `d` containing `d/x.js`, whose parent chain
`/p` holds one ancestor ignore file `/p/.eslintignore`. -/
def envC : Env :=
  { stat := fun p =>
      if p == "d" then Except.ok { isDirectory := true }
      else Except.error { message := "ENOENT: " ++ p }
    existsSync := fun p => p == "/r/d/x.js"
    readFileSync := fun _ => "var y;"
    resolve := fun p => "/r/" ++ p
    parentDir := fun _ => "/p"
    getConfig := fun _ _ => "cfg"
    verify := fun _ _ _ => []
    scanAncestors := fun _ => Except.ok ["/p/.eslintignore"]
    walk := fun p =>
      if p == "d" then { children := ["d/x.js"], terminalError := none }
      else { children := [], terminalError := none } }

/-- A world with a directory `baddir` containing `baddir/c.js`, a plain
file `z.js`, and an unreadable parent chain: every ancestor scan fails. -/
def envD : Env :=
  { stat := fun p =>
      if p == "baddir" then Except.ok { isDirectory := true }
      else if p == "z.js" then Except.ok { isDirectory := false }
      else Except.error { message := "ENOENT: " ++ p }
    existsSync := fun p => p == "/r/baddir/c.js" || p == "/r/z.js"
    readFileSync := fun _ => "var z;"
    resolve := fun p => "/r/" ++ p
    parentDir := fun _ => "/p"
    getConfig := fun _ _ => "cfg"
    verify := fun _ _ _ => []
    scanAncestors := fun _ => Except.error { message := "EACCES: /p" }
    walk := fun p =>
      if p == "baddir" then { children := ["baddir/c.js"], terminalError := none }
      else { children := [], terminalError := none } }

/-! ### Claims -/

/-- C10: calling `executeOnFiles` with an empty target list invokes the
callback exactly once, with a null error and an empty result list, performs
no filesystem operations (the trace is empty), and touches neither the
module state nor the engine. -/
theorem claim_C10_empty_targets (env : Env) (engine : CLIEngine) (st : ModuleState) :
    CLIEngine.executeOnFiles env engine st [] =
      ({ trace := [], errors := [], completed := some [], moduleState := st,
         filesAfter := [] },
       engine) := rfl

/-- C3: targets are dispatched strictly one at a time in the order given:
a run on `xs ++ ys` equals the run on `xs` followed -- only when every
target of `xs` reached its terminal `cb(null, res)` -- by the run on `ys`
continuing from the accumulated result list and module state, with traces,
error callbacks and result lists concatenated in order; after a terminal
failure inside `xs`, the targets of `ys` are never dispatched. -/
theorem claim_C3_sequential_in_order (env : Env) (engine : CLIEngine)
    (st : ModuleState) (xs ys : List String) :
    (CLIEngine.executeOnFiles env engine st (xs ++ ys)).1 =
      (let o₁ := (CLIEngine.executeOnFiles env engine st xs).1
       match o₁.completed with
       | none => { o₁ with filesAfter := o₁.filesAfter ++ ys }
       | some acc₁ =>
         let o₂ := executeOnFilesLoop env engine.options ys acc₁ o₁.moduleState
         { o₂ with trace := o₁.trace ++ o₂.trace,
                   errors := o₁.errors ++ o₂.errors }) :=
  executeOnFilesLoop_append env engine.options xs ys [] st

/-- C9: `executeOnFiles` consumes the caller's `files` array through
`files.shift()`: after a run that reached the final
`callback(null, results)` -- it processed all targets -- the array is
empty, while the engine (its stored options) is unchanged. -/
theorem claim_C9_consumes_files (env : Env) (engine : CLIEngine) (st : ModuleState)
    (files : List String) (rs : List LintResult)
    (h : ((CLIEngine.executeOnFiles env engine st files).1).completed = some rs) :
    ((CLIEngine.executeOnFiles env engine st files).1).filesAfter = [] ∧
      (CLIEngine.executeOnFiles env engine st files).2 = engine := by
  refine ⟨?_, rfl⟩
  simp only [CLIEngine.executeOnFiles] at h ⊢
  exact executeOnFilesLoop_ok_filesAfter env engine.options files [] st rs h

/-- Witness for C9 at a concrete run that succeeds. -/
theorem claim_C9_witness :
    ((CLIEngine.executeOnFiles envB (CLIEngine.create none) ModuleState.init
        ["ok.js"]).1).filesAfter = [] ∧
      (CLIEngine.executeOnFiles envB (CLIEngine.create none) ModuleState.init
        ["ok.js"]).2 = CLIEngine.create none :=
  claim_C9_consumes_files envB (CLIEngine.create none) ModuleState.init ["ok.js"]
    [{ filePath := "ok.js", messages := [] }] rfl

/-- C1 fails on the code for the error class it itself names.  When
`findIgnoreFiles` throws while dispatching `baddir`, `cb(err)` propagates
the error to the caller -- but the never-paused walker keeps running: its
`end` invokes the dispatch callback again with the walk's results, the loop
resumes, the subsequent target `z.js` is dispatched (its events appear in
the trace), and the final `callback(null, results)` hands the caller a
result list holding both targets' results.  The caller thus receives both
an error and a result list, and further targets are processed. -/
theorem claim_C1_counterexample :
    (CLIEngine.executeOnFiles envD (CLIEngine.create none) ModuleState.init
        ["baddir", "z.js"]).1 =
      { trace := [Event.statCall "baddir", Event.scanAncestorsEv "/p",
          Event.resetEv, Event.getConfigEv "/r/baddir/c.js",
          Event.readFileEv "/r/baddir/c.js",
          Event.verifyEv "var z;" "cfg" "baddir/c.js",
          Event.pushResult { filePath := "baddir/c.js", messages := [] },
          Event.statCall "z.js", Event.resetEv, Event.getConfigEv "/r/z.js",
          Event.readFileEv "/r/z.js", Event.verifyEv "var z;" "cfg" "z.js"],
        errors := [{ message := "EACCES: /p" }],
        completed := some [{ filePath := "baddir/c.js", messages := [] },
          { filePath := "z.js", messages := [] }],
        moduleState := { ignoreFileFinder := some ⟨".eslintignore", []⟩ },
        filesAfter := [] } := rfl

/-- C1 amended: two failure behaviours coexist.  (1) For a dispatch whose
only callback invocation is an error -- a stat failure, or a directory-read
failure during a walk whose ignore-file lookup succeeded -- the run aborts
exactly as originally claimed: after a clean prefix `xs` the caller gets
that error, the accumulated results are discarded (`completed = none`), and
the targets after the failing one are never dispatched.  (2) For a failure
locating ancestor ignore files, however, the dispatch delivers the error
*before* its terminal signal: the never-paused walker still runs, emits its
results with no pause/load/resume, and its terminal signal invokes the
callback a second time, so the run can continue past the failing target. -/
theorem claim_C1_failure_modes (env : Env) (engine : CLIEngine)
    (st stDir : ModuleState) (xs : List String) (y : String) (zs : List String)
    (dir : String) (c : CLIEngineOptions) (acc₁ : List LintResult) (e : Err) :
    (((CLIEngine.executeOnFiles env engine st xs).1).completed = some acc₁ →
      (executeOnFileOrDirectory env
          ((CLIEngine.executeOnFiles env engine st xs).1).moduleState y
          engine.options).2.1 =
        { preErrors := [], terminal := Except.error e } →
      (CLIEngine.executeOnFiles env engine st (xs ++ y :: zs)).1 =
        { trace := ((CLIEngine.executeOnFiles env engine st xs).1).trace ++
            (executeOnFileOrDirectory env
              ((CLIEngine.executeOnFiles env engine st xs).1).moduleState y
              engine.options).1,
          errors := ((CLIEngine.executeOnFiles env engine st xs).1).errors ++ [e],
          completed := none,
          moduleState := (executeOnFileOrDirectory env
            ((CLIEngine.executeOnFiles env engine st xs).1).moduleState y
            engine.options).2.2,
          filesAfter := zs }) ∧
    ((findIgnoreFiles env stDir (env.parentDir dir)).2.1 = Except.error e →
      executeOnDirectory env stDir dir c =
        ((findIgnoreFiles env stDir (env.parentDir dir)).1 ++
           (walkChildren env c (env.walk dir).children).1,
         { preErrors := [e],
           terminal :=
             match (env.walk dir).terminalError with
             | some e₂ => Except.error e₂
             | none => Except.ok (walkChildren env c (env.walk dir).children).2 },
         (findIgnoreFiles env stDir (env.parentDir dir)).2.2)) := by
  constructor
  · intro hxs hy
    simp only [CLIEngine.executeOnFiles] at hxs hy ⊢
    rw [executeOnFilesLoop_append env engine.options xs (y :: zs) [] st]
    simp only [hxs, executeOnFilesLoop, hy, List.nil_append]
  · intro hf
    simp only [executeOnDirectory]
    rw [hf]

/-- Witness for the amended C1: `nope.js` cannot be stat'd after the clean
prefix `ok.js`, so the run aborts with only that error and `z.js` stays
undispatched; and `baddir`, whose ancestor scan fails, delivers the error
first and then its walk's results. -/
theorem claim_C1_witness :
    (CLIEngine.executeOnFiles envB (CLIEngine.create none) ModuleState.init
        (["ok.js"] ++ "nope.js" :: ["z.js"])).1 =
      { trace := [Event.statCall "ok.js", Event.resetEv, Event.getConfigEv "/r/ok.js",
          Event.readFileEv "/r/ok.js", Event.verifyEv "var x;" "cfg" "ok.js",
          Event.statCall "nope.js"],
        errors := [{ message := "ENOENT: nope.js" }],
        completed := none,
        moduleState := ModuleState.init,
        filesAfter := ["z.js"] } ∧
    executeOnDirectory envD ModuleState.init "baddir" defaultOptions =
      ([Event.scanAncestorsEv "/p", Event.resetEv,
          Event.getConfigEv "/r/baddir/c.js", Event.readFileEv "/r/baddir/c.js",
          Event.verifyEv "var z;" "cfg" "baddir/c.js",
          Event.pushResult { filePath := "baddir/c.js", messages := [] }],
       { preErrors := [{ message := "EACCES: /p" }],
         terminal := Except.ok [{ filePath := "baddir/c.js", messages := [] }] },
       { ignoreFileFinder := some { fileName := ".eslintignore", cache := [] } }) :=
  ⟨(claim_C1_failure_modes envB (CLIEngine.create none) ModuleState.init
      ModuleState.init ["ok.js"] "nope.js" ["z.js"] "d" defaultOptions
      [{ filePath := "ok.js", messages := [] }]
      { message := "ENOENT: nope.js" }).1 rfl rfl,
   (claim_C1_failure_modes envD (CLIEngine.create none) ModuleState.init
      ModuleState.init [] "" [] "baddir" defaultOptions []
      { message := "EACCES: /p" }).2 rfl⟩

/-- C2 fails on the code: an explicitly named target that does not exist on
disk is stat'd first, the stat fails, and the run aborts with the error --
no Result (fatal or otherwise) is produced and the remaining target is
never processed. -/
theorem claim_C2_counterexample :
    (CLIEngine.executeOnFiles envB (CLIEngine.create none) ModuleState.init
        ["nope.js", "ok.js"]).1 =
      { trace := [Event.statCall "nope.js"],
        errors := [{ message := "ENOENT: nope.js" }],
        completed := none,
        moduleState := ModuleState.init,
        filesAfter := ["ok.js"] } := rfl

/-- C2 amended: the one-fatal-Result behaviour belongs to `processFile`:
run on a path that does not exist (as happens for entries discovered
during a directory walk), it returns exactly one Result carrying the name
as given and a single `fatal` message, and it never throws; an explicitly
named target that cannot be stat'd, by contrast, aborts its dispatch with
the stat error before `processFile` is ever reached. -/
theorem claim_C2_missing_file (env : Env) (c : CLIEngineOptions) (st : ModuleState)
    (name : String) (e : Err) :
    (env.existsSync (env.resolve name) = false →
      processFile env c name =
        ([Event.resetEv],
         { filePath := name,
           messages :=
             [⟨true, "Could not find file at '" ++ env.resolve name ++ "'."⟩] })) ∧
    (env.stat name = Except.error e →
      executeOnFileOrDirectory env st name c =
        ([Event.statCall name],
         { preErrors := [], terminal := Except.error e }, st)) := by
  constructor
  · intro h
    simp [processFile, h]
  · intro h
    simp [executeOnFileOrDirectory, h]

/-- Witness for the amended C2 at the missing file `nope.js`. -/
theorem claim_C2_witness :
    processFile envB defaultOptions "nope.js" =
      ([Event.resetEv],
       { filePath := "nope.js",
         messages := [⟨true, "Could not find file at '/r/nope.js'."⟩] }) ∧
    executeOnFileOrDirectory envB ModuleState.init "nope.js" defaultOptions =
      ([Event.statCall "nope.js"],
       { preErrors := [],
         terminal := Except.error { message := "ENOENT: nope.js" } },
       ModuleState.init) := by
  have h := claim_C2_missing_file envB defaultOptions ModuleState.init "nope.js"
    { message := "ENOENT: nope.js" }
  exact ⟨h.1 rfl, h.2 rfl⟩

/-- The synchronous setup phase of a directory dispatch (ignore-file lookup
plus the pause/load/resume barrier) records no result. -/
theorem pushResult_not_in_setup (env : Env) (st : ModuleState) (d : String)
    (ancestors : List String) (res : LintResult) :
    Event.pushResult res ∉
      (findIgnoreFiles env st d).1 ++
        (if ancestors.length ≠ 0 then
          Event.pauseWalk :: loadAncestorIgnoreFiles ancestors 0 ancestors.length
         else []) := by
  intro h
  rcases List.mem_append.mp h with h | h
  · exact Event.noConfusion (findIgnoreFiles_trace env st d _ h)
  · by_cases hn : ancestors.length ≠ 0
    · rw [if_pos hn] at h
      rcases List.mem_cons.mp h with h | h
      · exact Event.noConfusion h
      · rcases loadAncestorIgnoreFiles_events ancestors 0 ancestors.length _ h with
          ⟨g, hg⟩ | hg
        · exact Event.noConfusion hg
        · exact Event.noConfusion hg
    · rw [if_neg hn] at h
      exact List.not_mem_nil _ h

/-- C4: in every directory walk no result is recorded before any ancestor
ignore-file load -- every `loadIgnoreFile` event strictly precedes every
`pushResult` event, so results only appear once all ancestor ignore files
are registered; and when the set of ancestor ignore files is empty the
walk is never paused. -/
theorem claim_C4_barrier (env : Env) (st : ModuleState) (dir : String)
    (c : CLIEngineOptions) :
    (∀ l g r, (executeOnDirectory env st dir c).1 =
        l ++ Event.loadIgnoreFile g :: r →
      ∀ res, Event.pushResult res ∉ l) ∧
    ((findIgnoreFiles env st (env.parentDir dir)).2.1 = Except.ok [] →
      Event.pauseWalk ∉ (executeOnDirectory env st dir c).1) := by
  constructor
  · intro l g r heq res hres
    rcases executeOnDirectory_trace env st dir c with ⟨e, hf, htr⟩ |
      ⟨ancestors, hf, htr⟩
    · have hmem : Event.loadIgnoreFile g ∈ (executeOnDirectory env st dir c).1 := by
        rw [heq]
        exact List.mem_append_right l (List.mem_cons_self _ _)
      rw [htr] at hmem
      rcases List.mem_append.mp hmem with h | h
      · exact Event.noConfusion (findIgnoreFiles_trace env st (env.parentDir dir) _ h)
      · exact walkChildren_no_load env c (env.walk dir).children g h
    · have hsplit :
          ((findIgnoreFiles env st (env.parentDir dir)).1 ++
            (if ancestors.length ≠ 0 then
              Event.pauseWalk :: loadAncestorIgnoreFiles ancestors 0 ancestors.length
             else [])) ++ (walkChildren env c (env.walk dir).children).1 =
          l ++ (Event.loadIgnoreFile g :: r) := by
        rw [← htr, heq]
      rcases List.append_eq_append_iff.mp hsplit with ⟨a, ha₁, ha₂⟩ | ⟨c', hc₁, hc₂⟩
      · have : Event.loadIgnoreFile g ∈ (walkChildren env c (env.walk dir).children).1 := by
          rw [ha₂]
          exact List.mem_append_right a (List.mem_cons_self _ _)
        exact walkChildren_no_load env c (env.walk dir).children g this
      · have hmem : Event.pushResult res ∈
            (findIgnoreFiles env st (env.parentDir dir)).1 ++
              (if ancestors.length ≠ 0 then
                Event.pauseWalk :: loadAncestorIgnoreFiles ancestors 0 ancestors.length
               else []) := by
          rw [hc₁]
          exact List.mem_append_left c' hres
        exact pushResult_not_in_setup env st (env.parentDir dir) ancestors res hmem
  · intro hok hmem
    rcases executeOnDirectory_trace env st dir c with ⟨e, hf, htr⟩ |
      ⟨ancestors, hf, htr⟩
    · rw [hok] at hf
      exact Except.noConfusion hf
    · rw [hok] at hf
      have hanc : ancestors = [] := by
        injection hf with h
        exact h.symm
      subst hanc
      rw [htr] at hmem
      simp only [List.length_nil, ne_eq, not_true_eq_false, if_false,
        List.append_nil] at hmem
      rcases List.mem_append.mp hmem with h | h
      · exact Event.noConfusion (findIgnoreFiles_trace env st (env.parentDir dir) _ h)
      · exact walkChildren_no_pause env c (env.walk dir).children h

/-- Witness for C4: a walk with one ancestor ignore file records no result
before the load, and a walk with no ancestor ignore files never pauses. -/
theorem claim_C4_witness :
    (Event.pushResult { filePath := "d/x.js", messages := [] } ∉
      [Event.scanAncestorsEv "/p", Event.pauseWalk]) ∧
    Event.pauseWalk ∉ (executeOnDirectory envA ModuleState.init "d" defaultOptions).1 :=
  ⟨(claim_C4_barrier envC ModuleState.init "d" defaultOptions).1
      [Event.scanAncestorsEv "/p", Event.pauseWalk] "/p/.eslintignore"
      [Event.resumeWalk, Event.resetEv, Event.getConfigEv "/r/d/x.js",
       Event.readFileEv "/r/d/x.js", Event.verifyEv "var y;" "cfg" "d/x.js",
       Event.pushResult { filePath := "d/x.js", messages := [] }] rfl
      { filePath := "d/x.js", messages := [] },
   (claim_C4_barrier envA ModuleState.init "d" defaultOptions).2 rfl⟩

/-- C6: whenever a directory dispatch's terminal callback carries a result
list, that list is exactly the non-ignored entries whose `path.extname` is
`".js"`, in discovery order, each processed by `processFile`; consequently
every result of a directory target has a `filePath` ending in `.js`. -/
theorem claim_C6_js_only (env : Env) (st : ModuleState) (dir : String)
    (c : CLIEngineOptions) (rs : List LintResult)
    (h : ((executeOnDirectory env st dir c).2.1).terminal = Except.ok rs) :
    rs = ((env.walk dir).children.filter (fun p => extname p == ".js")).map
        (fun p => (processFile env c p).2) ∧
    ∀ r ∈ rs, ['.', 'j', 's'] <:+ r.filePath.data := by
  have hrs : rs = (walkChildren env c (env.walk dir).children).2 := by
    rw [executeOnDirectory_terminal env st dir c] at h
    rcases hw : (env.walk dir).terminalError with _ | e2
    · rw [hw] at h
      simp at h
      exact h.symm
    · rw [hw] at h
      simp at h
  constructor
  · rw [hrs, walkChildren_results]
  · intro r hr
    rw [hrs, walkChildren_results] at hr
    obtain ⟨p, hp, hpe⟩ := List.mem_map.mp hr
    have hext : extname p = ".js" := by
      have h2 := (List.mem_filter.mp hp).2
      simpa using h2
    rw [← hpe, processFile_filePath]
    exact extname_js_suffix p hext

/-- Witness for C6 on a directory holding `d/a.js` and `d/b.txt`. -/
theorem claim_C6_witness :
    ([{ filePath := "d/a.js", messages := [] }] : List LintResult) =
      ((envA.walk "d").children.filter (fun p => extname p == ".js")).map
        (fun p => (processFile envA defaultOptions p).2) ∧
    ∀ r ∈ ([{ filePath := "d/a.js", messages := [] }] : List LintResult),
      ['.', 'j', 's'] <:+ r.filePath.data :=
  claim_C6_js_only envA ModuleState.init "d" defaultOptions
    [{ filePath := "d/a.js", messages := [] }] rfl

/-- First `executeOnFiles` call of the C5 scenario: it scans for the
ancestor ignore files of `d`. -/
def c5run1 : RunOutcome :=
  (CLIEngine.executeOnFiles envC (CLIEngine.create none) ModuleState.init ["d"]).1

/-- Second `executeOnFiles` call of the C5 scenario, made through a
different `CLIEngine` instance with different options: the module state
left by the first call is still in place. -/
def c5run2 : RunOutcome :=
  (CLIEngine.executeOnFiles envC
    (CLIEngine.create (some { ignorePath := some (some "/override") }))
    c5run1.moduleState ["d"]).1

/-- C5 fails on the code: the locator is not constructed fresh per call.
After the first call the module-level finder (and its memo for `/p`)
persists; the second call -- from a different engine instance -- emits no
ancestor scan at all, yet still registers `/p/.eslintignore`: it was served
from the first call's cache. -/
theorem claim_C5_counterexample :
    c5run1.moduleState =
      { ignoreFileFinder := some
          { fileName := ".eslintignore", cache := [("/p", ["/p/.eslintignore"])] } } ∧
    c5run2.trace =
      [Event.statCall "d", Event.pauseWalk,
       Event.loadIgnoreFile "/p/.eslintignore", Event.resumeWalk, Event.resetEv,
       Event.getConfigEv "/r/d/x.js", Event.readFileEv "/r/d/x.js",
       Event.verifyEv "var y;" "cfg" "d/x.js",
       Event.pushResult { filePath := "d/x.js", messages := [] }] ∧
    Event.scanAncestorsEv "/p" ∈ c5run1.trace ∧
    Event.scanAncestorsEv "/p" ∉ c5run2.trace ∧
    c5run2.moduleState = c5run1.moduleState := by
  refine ⟨rfl, rfl, by decide, by decide, rfl⟩

/-- C5 amended: `findIgnoreFiles` owns a lazily created module-level
`FileFinder` singleton.  Every call leaves a finder in place, and once a
directory's lookup is cached on it, any later call -- whichever
`executeOnFiles` run or engine instance it comes from -- returns the cached
paths without touching the filesystem and without changing state. -/
theorem claim_C5_module_singleton (env : Env) (st : ModuleState) (dir : String) :
    ((findIgnoreFiles env st dir).2.2).ignoreFileFinder.isSome = true ∧
    (∀ f r, st.ignoreFileFinder = some f → f.cache.lookup dir = some r →
      findIgnoreFiles env st dir = ([], Except.ok r, st)) := by
  constructor
  · rfl
  · intro f r hf hr
    unfold findIgnoreFiles
    rw [hf]
    simp only [FileFinder.findAll, hr]
    rw [← hf]

/-- Witness for the amended C5: a cache hit is served without a scan. -/
theorem claim_C5_witness :
    findIgnoreFiles envC
        { ignoreFileFinder := some
            { fileName := ".eslintignore", cache := [("/p", ["/p/x"])] } } "/p" =
      ([], Except.ok ["/p/x"],
       { ignoreFileFinder := some
           { fileName := ".eslintignore", cache := [("/p", ["/p/x"])] } }) ∧
    ((findIgnoreFiles envC ModuleState.init "/q").2.2).ignoreFileFinder.isSome = true :=
  ⟨(claim_C5_module_singleton envC
      { ignoreFileFinder := some
          { fileName := ".eslintignore", cache := [("/p", ["/p/x"])] } } "/p").2
      { fileName := ".eslintignore", cache := [("/p", ["/p/x"])] } ["/p/x"] rfl rfl,
   (claim_C5_module_singleton envC ModuleState.init "/q").1⟩

/-- C7: option layering in the constructor
(`assign(Object.create(defaultOptions), options || {})`): each stored field
is the caller's value when the caller supplied one and the default
otherwise, and constructing with no options yields exactly the defaults. -/
theorem claim_C7_option_layering :
    (∀ o : PartialOptions,
      ((∀ v, o.configFile = some v →
          (CLIEngine.create (some o)).options.configFile = v) ∧
        (o.configFile = none →
          (CLIEngine.create (some o)).options.configFile = defaultOptions.configFile)) ∧
      ((∀ v, o.reset = some v → (CLIEngine.create (some o)).options.reset = v) ∧
        (o.reset = none →
          (CLIEngine.create (some o)).options.reset = defaultOptions.reset)) ∧
      ((∀ v, o.rulePaths = some v →
          (CLIEngine.create (some o)).options.rulePaths = v) ∧
        (o.rulePaths = none →
          (CLIEngine.create (some o)).options.rulePaths = defaultOptions.rulePaths)) ∧
      ((∀ v, o.useEslintrc = some v →
          (CLIEngine.create (some o)).options.useEslintrc = v) ∧
        (o.useEslintrc = none →
          (CLIEngine.create (some o)).options.useEslintrc = defaultOptions.useEslintrc)) ∧
      ((∀ v, o.envs = some v → (CLIEngine.create (some o)).options.envs = v) ∧
        (o.envs = none →
          (CLIEngine.create (some o)).options.envs = defaultOptions.envs)) ∧
      ((∀ v, o.globals = some v → (CLIEngine.create (some o)).options.globals = v) ∧
        (o.globals = none →
          (CLIEngine.create (some o)).options.globals = defaultOptions.globals)) ∧
      ((∀ v, o.rules = some v → (CLIEngine.create (some o)).options.rules = v) ∧
        (o.rules = none →
          (CLIEngine.create (some o)).options.rules = defaultOptions.rules)) ∧
      ((∀ v, o.ignore = some v → (CLIEngine.create (some o)).options.ignore = v) ∧
        (o.ignore = none →
          (CLIEngine.create (some o)).options.ignore = defaultOptions.ignore)) ∧
      ((∀ v, o.ignorePath = some v →
          (CLIEngine.create (some o)).options.ignorePath = v) ∧
        (o.ignorePath = none →
          (CLIEngine.create (some o)).options.ignorePath = defaultOptions.ignorePath))) ∧
    CLIEngine.create none = { options := defaultOptions } := by
  refine ⟨fun o => ?_, rfl⟩
  refine ⟨⟨?_, ?_⟩, ⟨?_, ?_⟩, ⟨?_, ?_⟩, ⟨?_, ?_⟩, ⟨?_, ?_⟩, ⟨?_, ?_⟩, ⟨?_, ?_⟩,
    ⟨?_, ?_⟩, ⟨?_, ?_⟩⟩
  all_goals intros
  all_goals simp [CLIEngine.create, *]

/-- Witness for C7: a supplied `configFile` wins, an unsupplied `reset`
falls back to its default. -/
theorem claim_C7_witness :
    (CLIEngine.create (some { configFile := some (some "conf") })).options.configFile =
      some "conf" ∧
    (CLIEngine.create (some { configFile := some (some "conf") })).options.reset =
      defaultOptions.reset := by
  have h := claim_C7_option_layering.1 { configFile := some (some "conf") }
  exact ⟨h.1.1 (some "conf") rfl, h.2.1.2 rfl⟩

/-- C8: `processFile` begins by clearing the verifier's cross-file state:
`eslint.reset()` is its very first capability call, and in particular it
precedes any `eslint.verify` call of the same invocation. -/
theorem claim_C8_reset_before_verify (env : Env) (c : CLIEngineOptions) (f : String) :
    (processFile env c f).1.head? = some Event.resetEv ∧
    ∀ l t cfg fn r, (processFile env c f).1 = l ++ Event.verifyEv t cfg fn :: r →
      Event.resetEv ∈ l := by
  constructor
  · by_cases h : env.existsSync (env.resolve f) <;> simp [processFile, h]
  · intro l t cfg fn r heq
    by_cases h : env.existsSync (env.resolve f)
    · simp only [processFile, h, if_true] at heq
      cases l with
      | nil => simp at heq
      | cons e l' =>
        rw [List.cons_append] at heq
        have he : Event.resetEv = e := ((List.cons.injEq ..).mp heq).1
        rw [← he]
        exact List.mem_cons_self _ _
    · simp only [processFile, h, if_false] at heq
      cases l with
      | nil => simp at heq
      | cons e l' =>
        rw [List.cons_append] at heq
        have h2 := ((List.cons.injEq ..).mp heq).2
        simp at h2

/-- Witness for C8 on an existing file. -/
theorem claim_C8_witness :
    (processFile envA defaultOptions "a.js").1.head? = some Event.resetEv ∧
    Event.resetEv ∈ [Event.resetEv, Event.getConfigEv "/r/a.js",
      Event.readFileEv "/r/a.js"] :=
  ⟨(claim_C8_reset_before_verify envA defaultOptions "a.js").1,
   (claim_C8_reset_before_verify envA defaultOptions "a.js").2
     [Event.resetEv, Event.getConfigEv "/r/a.js", Event.readFileEv "/r/a.js"]
     "var x;" "cfg" "a.js" [] rfl⟩
